import Mathlib

/-!
Shallow embedding of the logging core of the `exampleserver` repository
(package `pkg/logger`): entry/filter matching (`WebhookPlugin.ShouldHandle`),
the plugin registry (`Logger.AddPlugin` / `Logger.RemovePlugin`), the emission
path (`Logger.logWithSource`), the log-line timestamp machinery
(`log.LstdFlags` header rendering and `extractTimestamp`), and the retrieval
pipeline of `HTTPHandler.GetLogs` (request normalization, tail scan,
time-range scan, CSV encoding).

Go strings are modelled as `List Char`; Go `time.Time` instants are modelled
as `Int` (nanoseconds since the epoch) where only instant arithmetic and
comparison matter, and as a `DateTime` component record where wall-clock
formatting/parsing matters.  Go slices are `List`s; `nil`-able pointers are
`Option`s; functions that return `error` return an `Option` error message or
an error component in a pair.
-/

namespace ExampleServer

/-! ### Go string primitives used by the logger -/

/-- `strings.Contains` for `List Char` strings: `sub` occurs somewhere in `s`
(`strings.Contains(s, "")` is `true`). -/
def containsSub (s sub : List Char) : Bool :=
  if sub.isPrefixOf s then true
  else
    match s with
    | [] => sub.isEmpty
    | _ :: t => containsSub t sub

/-- `strings.EqualFold` restricted to the ASCII folding the log levels use:
case-insensitive equality via `Char.toLower`. -/
def eqFold (a b : List Char) : Bool :=
  a.map Char.toLower == b.map Char.toLower

/-! ### Entry model and filter matching

Source: `LogEntry` / `LogFilter` record types and
`WebhookPlugin.ShouldHandle` (webhook plugin file of `pkg/logger`).

`Fields` is `map[string]any` in the source; only string-valued fields can
ever satisfy a `FieldMatch` (a non-string `any` never equals a string), so
fields are modelled as an association list of string pairs. -/

/-- `LogEntry`: one structured log event.  `timestamp` is the emission
instant in nanoseconds. -/
structure LogEntryM where
  timestamp : Int
  level : List Char
  message : List Char
  source : List Char
  line : Int
  fields : List (List Char × List Char)
deriving DecidableEq, Repr

/-- `LogFilter`: declarative criteria for filtering log entries. -/
structure LogFilterM where
  levels : List (List Char)
  sources : List (List Char)
  containsL : List (List Char)
  startTime : Option Int
  endTime : Option Int
  fieldMatch : List (List Char × List Char)
deriving DecidableEq, Repr

/-- Go map lookup `entry.Fields[key]`, returning the value and whether the
key is present (`none` = absent). -/
def lookupField (fields : List (List Char × List Char)) (key : List Char) :
    Option (List Char) :=
  match fields with
  | [] => none
  | kv :: rest => if kv.1 = key then some kv.2 else lookupField rest key

/-- `WebhookPlugin.ShouldHandle`: the early-return chain of the source is the
conjunction, in order, of the level check, source check, contains check
(every listed substring must occur in the message), strict time-bound
checks (`Timestamp.Before(StartTime)` / `Timestamp.After(EndTime)` reject),
and the field-match check (each key present with the exact value). -/
def shouldHandle (f : LogFilterM) (e : LogEntryM) : Bool :=
  (if 0 < f.levels.length then f.levels.any (fun lv => eqFold e.level lv) else true) &&
  (if 0 < f.sources.length then f.sources.any (fun s => containsSub e.source s) else true) &&
  (if 0 < f.containsL.length then f.containsL.all (fun sub => containsSub e.message sub) else true) &&
  (match f.startTime with | some st => !(e.timestamp < st) | none => true) &&
  (match f.endTime with | some et => !(et < e.timestamp) | none => true) &&
  (if 0 < f.fieldMatch.length then
    f.fieldMatch.all (fun kv =>
      match lookupField e.fields kv.1 with
      | some v => v == kv.2
      | none => false)
   else true)

/-! ### Plugin registry: `Logger.AddPlugin` / `Logger.RemovePlugin`

A plugin's `Initialize`/`Close` outcomes are modelled as fields (`none` =
success, `some msg` = the error's message); `id` models Go interface-value
identity (`p == plugin`). -/

/-- A registered log plugin, with the outcomes of its lifecycle calls. -/
structure PluginM where
  id : Nat
  initErr : Option (List Char)
  closeErr : Option (List Char)
deriving DecidableEq, Repr

/-- `Logger.AddPlugin`: run `plugin.Initialize()`; on error return the
wrapped error and leave the plugin list unchanged, otherwise append the
plugin.  Result is `(returned error, plugin list after the call)`. -/
def addPlugin (plugins : List PluginM) (p : PluginM) :
    Option (List Char) × List PluginM :=
  match p.initErr with
  | some e => (some (("failed to initialize plugin: ").data ++ e), plugins)
  | none => (none, plugins ++ [p])

/-- `Logger.RemovePlugin`: find the first registered plugin equal to `p`;
close it (on close error, return the wrapped error with the list
unchanged), else remove it; if none matches, return `plugin not found`
with the list unchanged. -/
def removePlugin (plugins : List PluginM) (p : PluginM) :
    Option (List Char) × List PluginM :=
  match plugins with
  | [] => (some ("plugin not found").data, [])
  | q :: rest =>
    if q = p then
      match q.closeErr with
      | some e => (some (("failed to close plugin: ").data ++ e), q :: rest)
      | none => (none, rest)
    else
      let r := removePlugin rest p
      (r.1, q :: r.2)

/-! ### Emission path: `Logger.logWithSource`

The method builds the entry, takes a read-locked snapshot of the plugins,
starts (`go p.Handle(e)`) a delivery for every plugin whose `ShouldHandle`
accepts the entry, and only then writes the formatted line through the
multiplexed writer (`l.logger.Printf`).  The observable order of effects is
modelled as an event trace. -/

/-- An observable effect of one `logWithSource` call: initiating delivery to
the plugin at a given registry index, or the durable write of the formatted
line. -/
inductive LogEvent where
  | deliver (idx : Nat)
  | write
deriving DecidableEq, Repr

/-- `true` exactly on delivery-initiation events. -/
def isDeliverEvent : LogEvent → Bool
  | LogEvent.deliver _ => true
  | LogEvent.write => false

/-- The event trace of `Logger.logWithSource`: for each plugin (in registry
order) whose filter accepts the entry, a delivery is initiated; afterwards
the formatted line is written to the rotating sink. -/
def logWithSourceTrace (plugins : List LogFilterM) (e : LogEntryM) : List LogEvent :=
  (plugins.enum.filterMap (fun p =>
    if shouldHandle p.2 e then some (LogEvent.deliver p.1) else none))
  ++ [LogEvent.write]

/-- The ordering property claimed of the emission path: every durable write
event precedes every delivery-initiation event in the trace. -/
def writePrecedesDeliveries (tr : List LogEvent) : Prop :=
  ∀ (i j : Fin tr.length), tr.get i = LogEvent.write →
    isDeliverEvent (tr.get j) = true → i.val < j.val

instance (tr : List LogEvent) : Decidable (writePrecedesDeliveries tr) := by
  unfold writePrecedesDeliveries
  infer_instance

/-! ### Retrieval pipeline: `HTTPHandler.GetLogs`

The handler normalizes the request (the `LastMinutes` override, the
100-line default, the one-hour default before a lone `ToTime`), then either
tail-scans the file with a rolling window or filters it by parsed
timestamps.  Instants here are `Int` nanoseconds; `time.Duration`
multiplication is 64-bit and wraps. -/

/-- `LogRequest`: the normalized-in-place retrieval request. -/
structure LogRequestM where
  fromTime : Option Int
  toTime : Option Int
  lastLines : Option Int
  lastMinutes : Option Int
  format : List Char
deriving DecidableEq, Repr

/-- Two's-complement wrap of an integer into the `int64` range, as Go's
`time.Duration` arithmetic does on overflow. -/
def int64wrap (x : Int) : Int :=
  (x + 2 ^ 63) % 2 ^ 64 - 2 ^ 63

/-- `time.Duration(m) * time.Minute` in nanoseconds (64-bit, wrapping). -/
def minutesDuration (m : Int) : Int :=
  int64wrap (m * 60000000000)

/-- The request normalization of `GetLogs`, in source order:
(a) `LastMinutes` overrides both bounds with `[now - m minutes, now]`;
(b) with no `LastLines` and no bounds, default to the last 100 lines;
(c) a `ToTime` without a `FromTime` gets `FromTime = ToTime - 1h`. -/
def normalizeRequest (now : Int) (req : LogRequestM) : LogRequestM :=
  let req :=
    match req.lastMinutes with
    | some m =>
      { req with fromTime := some (now + minutesDuration (-m)), toTime := some now }
    | none => req
  let req :=
    if req.lastLines = none ∧ req.fromTime = none ∧ req.toTime = none then
      { req with lastLines := some 100 }
    else req
  if req.fromTime = none ∧ req.toTime ≠ none then
    { req with fromTime := (req.toTime.map (fun t => t + minutesDuration (-60))) }
  else req

/-- The tail-scan branch of `GetLogs`: sequentially append each line to a
rolling buffer and drop the oldest line whenever the buffer exceeds
`lastLines` lines, returning up to `lastLines` most recent lines in file
order. -/
def tailScan (n : Int) (lines : List (List Char)) : List (List Char) :=
  lines.foldl
    (fun buf l =>
      if n < ((buf ++ [l]).length : Int) then (buf ++ [l]).drop 1
      else buf ++ [l])
    []

/-- The per-line keep decision of the time-filtered branch of `GetLogs`:
skip lines whose timestamp does not parse, skip lines strictly before
`fromTime` or strictly after `toTime`. -/
def keepLine (ex : List Char → Option Int) (fromT toT : Option Int)
    (l : List Char) : Bool :=
  match ex l with
  | none => false
  | some ts =>
    (match fromT with | some f => !(ts < f) | none => true) &&
    (match toT with | some t => !(t < ts) | none => true)

/-- The time-filtered full scan of `GetLogs`: keep, in file order, exactly
the lines `keepLine` accepts. -/
def timeFilterScan (ex : List Char → Option Int) (fromT toT : Option Int)
    (lines : List (List Char)) : List (List Char) :=
  lines.filter (keepLine ex fromT toT)

/-- The line-selection core of `GetLogs`: normalize the request, then use
the tail scan when `LastLines` is set and no `FromTime` is in effect, and
the time-filtered scan otherwise.  `ex` is the timestamp extractor applied
to each scanned line (the source's `extractTimestamp`, whose time-only
branch consults the current date, so it is a parameter here). -/
def getLogsSelect (ex : List Char → Option Int) (now : Int)
    (req : LogRequestM) (lines : List (List Char)) : List (List Char) :=
  let r := normalizeRequest now req
  if r.lastLines ≠ none ∧ r.fromTime = none then
    tailScan (r.lastLines.getD 0) lines
  else
    timeFilterScan ex r.fromTime r.toTime lines

/-! ### CSV encoding of `GetLogs` -/

/-- `strings.Trim(s, cutset)`: remove every leading and trailing character
that occurs in `cutset`. -/
def trimCutset (cutset : List Char) (s : List Char) : List Char :=
  ((s.dropWhile (fun c => cutset.contains c)).reverse.dropWhile
    (fun c => cutset.contains c)).reverse

/-- `strings.SplitN(s, sep, _)` helper: split off the segment before the
first occurrence of the one-character separator, or `none` if absent. -/
def splitOnceAux (sep : Char) : List Char → Option (List Char × List Char)
  | [] => none
  | c :: cs =>
    if c = sep then some ([], cs)
    else (splitOnceAux sep cs).map (fun p => (c :: p.1, p.2))

/-- `strings.SplitN(s, sep, n)` for a one-character separator and `n ≥ 0`:
at most `n` segments, the last one unsplit. -/
def splitN (sep : Char) : Nat → List Char → List (List Char)
  | 0, _ => []
  | 1, s => [s]
  | n + 2, s =>
    match splitOnceAux sep s with
    | none => [s]
    | some (a, b) => a :: splitN sep (n + 1) b

/-- The per-line row of the CSV branch of `GetLogs`: split into at most four
space-delimited tokens; with fewer than four tokens the line yields no row,
otherwise the row is `(date + " " + time, bracket-stripped level,
remainder)`. -/
def csvRowOf (line : List Char) : Option (List (List Char)) :=
  match splitN ' ' 4 line with
  | [p0, p1, p2, p3] => some [p0 ++ ' ' :: p1, trimCutset ('[' :: [']']) p2, p3]
  | _ => none

/-- The CSV output of `GetLogs`: the header row followed by one row per
selected line that splits into four tokens. -/
def csvTable (lines : List (List Char)) : List (List (List Char)) :=
  [("Timestamp").data, ("Level").data, ("Message").data] ::
    lines.filterMap csvRowOf

/-! ### Wall-clock timestamps: the `log.LstdFlags` header and
`extractTimestamp`

`Logger.New` builds its `log.Logger` with `log.LstdFlags`, so every written
line starts with `YYYY/MM/DD hh:mm:ss ` (each number zero-padded by the log
package's `itoa`).  `extractTimestamp` splits a line on its first two
spaces and re-parses `parts[0] + " " + parts[1]` with the layout
`2006/01/02 15:04:05`, falling back to the layout `15:04:05` on `parts[0]`
interpreted against the current date. -/

/-- A wall-clock instant broken into calendar components, as Go's
formatting and `time.Parse` see it. -/
structure DateTime where
  year : Nat
  month : Nat
  day : Nat
  hour : Nat
  minute : Nat
  second : Nat
  nanos : Nat
deriving DecidableEq, Repr

/-- Truncation of an instant to one-second precision. -/
def truncSec (t : DateTime) : DateTime :=
  { t with nanos := 0 }

/-- The decimal rendering of `n` zero-padded to at least `w` characters, as
the log package's `itoa` produces. -/
def renderPad (w n : Nat) : List Char :=
  let ds := ((Nat.digits 10 n).reverse).map Nat.digitChar
  List.replicate (w - ds.length) '0' ++ ds

/-- The numeric value of a string of decimal digit characters. -/
def digitsToNat (cs : List Char) : Nat :=
  cs.foldl (fun a c => 10 * a + (c.toNat - 48)) 0

/-- Go `time`: a year is a leap year iff divisible by 4 and not by 100
unless also by 400. -/
def isLeapYear (y : Nat) : Bool :=
  y % 4 == 0 && (y % 100 != 0 || y % 400 == 0)

/-- Go `time.daysIn`: the number of days of a month (months numbered
1-12). -/
def daysInMonth (y m : Nat) : Nat :=
  if m = 2 then (if isLeapYear y then 29 else 28)
  else if m = 1 ∨ m = 3 ∨ m = 5 ∨ m = 7 ∨ m = 8 ∨ m = 10 ∨ m = 12 then 31
  else if m = 4 ∨ m = 6 ∨ m = 9 ∨ m = 11 then 30
  else 0

/-- `time.Parse` fixed-width number scan (`getnum` with `fixed` set, and
`getnum4` for the year): exactly `w` leading digits, returned with the rest
of the input. -/
def takeNum (w : Nat) (s : List Char) : Option (Nat × List Char) :=
  if (s.take w).length = w ∧ (s.take w).all Char.isDigit then
    some (digitsToNat (s.take w), s.drop w)
  else none

/-- `time.Parse` flexible number scan (`getnum` with `fixed` unset, used
for the `15` hour field): two leading digits if both are digits, else one
leading digit. -/
def takeNumFlex (s : List Char) : Option (Nat × List Char) :=
  match s with
  | c1 :: c2 :: rest =>
    if c1.isDigit ∧ c2.isDigit then some (digitsToNat [c1, c2], rest)
    else if c1.isDigit then some (digitsToNat [c1], c2 :: rest)
    else none
  | [c1] => if c1.isDigit then some (digitsToNat [c1], []) else none
  | [] => none

/-- `time.Parse` literal layout character: the input must start with `c`. -/
def expectCh (c : Char) : List Char → Option (List Char)
  | [] => none
  | x :: xs => if x = c then some xs else none

/-- `time.Parse("2006/01/02 15:04:05", s)`: scan the six numeric fields
separated by the layout's literals, require the input exhausted, and
validate the calendar ranges as `Parse` does (month 1-12, day within the
month, hour below 24, minute and second below 60). -/
def parseFullTimestamp (s : List Char) : Option DateTime :=
  (takeNum 4 s).bind (fun ys =>
  (expectCh '/' ys.2).bind (fun s1 =>
  (takeNum 2 s1).bind (fun mos =>
  (expectCh '/' mos.2).bind (fun s2 =>
  (takeNum 2 s2).bind (fun ds =>
  (expectCh ' ' ds.2).bind (fun s3 =>
  (takeNumFlex s3).bind (fun hs =>
  (expectCh ':' hs.2).bind (fun s4 =>
  (takeNum 2 s4).bind (fun mis =>
  (expectCh ':' mis.2).bind (fun s5 =>
  (takeNum 2 s5).bind (fun ss =>
    if ss.2 = [] ∧ 1 ≤ mos.1 ∧ mos.1 ≤ 12 ∧ 1 ≤ ds.1 ∧
        ds.1 ≤ daysInMonth ys.1 mos.1 ∧ hs.1 ≤ 23 ∧ mis.1 ≤ 59 ∧ ss.1 ≤ 59 then
      some ⟨ys.1, mos.1, ds.1, hs.1, mis.1, ss.1, 0⟩
    else none)))))))))))

/-- `time.Parse("15:04:05", s)`: the time-of-day fields alone, with the
same scanning and range validation. -/
def parseTimeOnly (s : List Char) : Option (Nat × Nat × Nat) :=
  (takeNumFlex s).bind (fun hs =>
  (expectCh ':' hs.2).bind (fun s1 =>
  (takeNum 2 s1).bind (fun mis =>
  (expectCh ':' mis.2).bind (fun s2 =>
  (takeNum 2 s2).bind (fun ss =>
    if ss.2 = [] ∧ hs.1 ≤ 23 ∧ mis.1 ≤ 59 ∧ ss.1 ≤ 59 then
      some (hs.1, mis.1, ss.1)
    else none)))))

/-- `extractTimestamp`: split the line on its first two spaces; with fewer
than two parts fail; otherwise parse `parts[0] + " " + parts[1]` as a full
timestamp, falling back to parsing `parts[0]` as a bare time-of-day
interpreted against today's date (`today` stands for the `time.Now()` the
source consults there). -/
def extractTimestamp (today : DateTime) (line : List Char) : Option DateTime :=
  if (splitN ' ' 3 line).length < 2 then none
  else
    match parseFullTimestamp ((splitN ' ' 3 line).getD 0 []
        ++ ' ' :: (splitN ' ' 3 line).getD 1 []) with
    | some t => some t
    | none =>
      match parseTimeOnly ((splitN ' ' 3 line).getD 0 []) with
      | some hms =>
        some ⟨today.year, today.month, today.day, hms.1, hms.2.1, hms.2.2, 0⟩
      | none => none

/-- The `log.LstdFlags` line header written before every message:
`YYYY/MM/DD hh:mm:ss ` with zero-padded fields. -/
def stdHeader (t : DateTime) : List Char :=
  renderPad 4 t.year ++ '/' :: renderPad 2 t.month ++ '/' :: renderPad 2 t.day
    ++ ' ' :: renderPad 2 t.hour ++ ':' :: renderPad 2 t.minute
    ++ ':' :: renderPad 2 t.second ++ [' ']

/-- `%d` rendering of the captured caller line number. -/
def renderInt (i : Int) : List Char :=
  if i < 0 then '-' :: renderPad 0 i.natAbs else renderPad 0 i.natAbs

/-- The message part of a log line, after the header: `logWithSource`
prints `[LEVEL] msg`, or `[LEVEL] source:line: msg` when a call site was
captured. -/
def logBody (level source : List Char) (lineNo : Int)
    (msg : List Char) : List Char :=
  if source = [] then '[' :: level ++ ']' :: ' ' :: msg
  else '[' :: level ++ ']' :: ' ' :: source ++ ':' :: renderInt lineNo
    ++ ':' :: ' ' :: msg

/-- The full log line `logWithSource` emits at instant `t`: the standard
header followed by the message part. -/
def logLine (t : DateTime) (level source : List Char) (lineNo : Int)
    (msg : List Char) : List Char :=
  stdHeader t ++ logBody level source lineNo msg

/-! ## Claims -/

/-- C5: a Filter whose every field is empty (no levels, no sources, no
contains, no time bounds, no fieldMatch) matches every entry:
`ShouldHandle` returns `true` on any entry. -/
theorem claim_C5 (e : LogEntryM) :
    shouldHandle ⟨[], [], [], none, none, []⟩ e = true := by
  simp [shouldHandle]

/-- C6: with a non-empty `contains` list, `ShouldHandle` returns `true`
only if every listed substring occurs in the entry's message (logical AND
over the substrings); equivalently, if any listed substring is absent the
match is `false`. -/
theorem claim_C6 (f : LogFilterM) (e : LogEntryM) (hne : f.containsL ≠ [])
    (h : shouldHandle f e = true) :
    ∀ sub ∈ f.containsL, containsSub e.message sub = true := by
  unfold shouldHandle at h
  simp only [Bool.and_eq_true] at h
  obtain ⟨⟨⟨⟨⟨_, _⟩, h3⟩, _⟩, _⟩, _⟩ := h
  rw [if_pos (List.length_pos.mpr hne)] at h3
  exact List.all_eq_true.mp h3

/-- Witness for C6: a filter listing two substrings, both present in the
message, is accepted, and the theorem yields occurrence of each. -/
theorem claim_C6_witness :
    containsSub ("xx alpha yy beta").data ("beta").data = true :=
  claim_C6 ⟨[], [], [("alpha").data, ("beta").data], none, none, []⟩
    ⟨0, ("INFO").data, ("xx alpha yy beta").data, [], 0, []⟩
    (by decide) (by decide) (("beta").data) (by decide)

/-- C10: registry mutation is atomic on error.  If `AddPlugin`'s call to
`Initialize` errors, or `RemovePlugin` is called with an unregistered
plugin or one whose `Close` errors, the operation returns an error and the
registered-plugin list is exactly as before the call. -/
theorem claim_C10 (st : List PluginM) (p : PluginM) :
    (p.initErr.isSome = true →
      (addPlugin st p).1.isSome = true ∧ (addPlugin st p).2 = st)
    ∧ (p ∉ st →
      (removePlugin st p).1.isSome = true ∧ (removePlugin st p).2 = st)
    ∧ (p.closeErr.isSome = true →
      (removePlugin st p).1.isSome = true ∧ (removePlugin st p).2 = st) := by
  refine ⟨?_, ?_, ?_⟩
  · intro h
    cases hi : p.initErr with
    | none => rw [hi] at h; simp at h
    | some e => simp [addPlugin, hi]
  · intro hmem
    induction st with
    | nil => simp [removePlugin]
    | cons q rest ih =>
      have hq : ¬ q = p := fun hqp => hmem (hqp ▸ List.mem_cons_self q rest)
      have hrest : p ∉ rest := fun hr => hmem (List.mem_cons_of_mem q hr)
      have hr := ih hrest
      simp only [removePlugin, if_neg hq]
      exact ⟨hr.1, by rw [hr.2]⟩
  · intro h
    induction st with
    | nil => simp [removePlugin]
    | cons q rest ih =>
      by_cases hq : q = p
      · have hce : q.closeErr = p.closeErr := by rw [hq]
        cases hc : p.closeErr with
        | none => rw [hc] at h; simp at h
        | some e => simp [removePlugin, hq, hce, hc]
      · simp only [removePlugin, if_neg hq]
        exact ⟨ih.1, by rw [ih.2]⟩

/-- Witness for C10: a plugin whose `Initialize` fails is not added, and
removing a plugin that is not registered leaves the registry unchanged. -/
theorem claim_C10_witness :
    (addPlugin [⟨1, none, none⟩] ⟨2, some ("boom").data, none⟩).2
        = [⟨1, none, none⟩]
    ∧ (removePlugin [⟨1, none, none⟩] ⟨2, none, none⟩).2
        = [⟨1, none, none⟩] :=
  ⟨((claim_C10 [⟨1, none, none⟩] ⟨2, some ("boom").data, none⟩).1
      (by decide)).2,
   ((claim_C10 [⟨1, none, none⟩] ⟨2, none, none⟩).2.1 (by decide)).2⟩

/-- C1 counterexample: with one match-all plugin registered, the trace of a
`logWithSource` call starts delivery at index 0 and performs the durable
write afterwards, so the claimed ordering (write before every delivery
initiation) is false. -/
theorem claim_C1_counterexample :
    ¬ writePrecedesDeliveries
        (logWithSourceTrace [⟨[], [], [], none, none, []⟩]
          ⟨0, ("INFO").data, ("hello").data, [], 0, []⟩) := by
  decide

/-- C1 amended: for every log emission, delivery to each matching sink is
initiated before the durable write of the formatted line to the rotating
sink; the write happens only after all deliveries have been started. -/
theorem claim_C1_amended (plugins : List LogFilterM) (e : LogEntryM)
    (i j : Fin (logWithSourceTrace plugins e).length)
    (hi : isDeliverEvent ((logWithSourceTrace plugins e).get i) = true)
    (hj : (logWithSourceTrace plugins e).get j = LogEvent.write) :
    i.val < j.val := by
  have hDdel : ∀ x ∈ plugins.enum.filterMap (fun p =>
      if shouldHandle p.2 e then some (LogEvent.deliver p.1) else none),
      isDeliverEvent x = true := by
    intro x hx
    obtain ⟨a, _, ha⟩ := List.mem_filterMap.mp hx
    by_cases hs : shouldHandle a.2 e
    · rw [if_pos hs] at ha
      cases ha
      rfl
    · rw [if_neg hs] at ha
      cases ha
  generalize hD : plugins.enum.filterMap (fun p =>
    if shouldHandle p.2 e then some (LogEvent.deliver p.1) else none) = D at hDdel
  have htr : logWithSourceTrace plugins e = D ++ [LogEvent.write] := by
    rw [logWithSourceTrace, hD]
  have hlen : (logWithSourceTrace plugins e).length = D.length + 1 := by
    rw [htr]; simp
  have hjq : (D ++ [LogEvent.write])[j.val]? = some LogEvent.write := by
    rw [← htr, List.getElem?_eq_getElem j.isLt, ← List.get_eq_getElem, hj]
  have hiq : (D ++ [LogEvent.write])[i.val]?
      = some ((logWithSourceTrace plugins e).get i) := by
    rw [← htr, List.getElem?_eq_getElem i.isLt, ← List.get_eq_getElem]
  have hjge : D.length ≤ j.val := by
    by_contra hlt
    push_neg at hlt
    rw [List.getElem?_append_left hlt] at hjq
    have hmem : LogEvent.write ∈ D := List.getElem?_mem hjq
    have := hDdel _ hmem
    simp [isDeliverEvent] at this
  have hilt : i.val < D.length := by
    by_contra hile
    push_neg at hile
    rw [List.getElem?_append_right hile] at hiq
    have hi0 : i.val - D.length = 0 := by
      have := i.isLt
      omega
    rw [hi0] at hiq
    simp only [List.getElem?_cons_zero] at hiq
    rw [← Option.some_inj.mp hiq] at hi
    simp [isDeliverEvent] at hi
  have hjeq : j.val = D.length := by
    have := j.isLt
    omega
  omega

/-- Witness for C1 amended: with one match-all plugin, the delivery event
(index 0) precedes the write event (index 1). -/
theorem claim_C1_amended_witness : (0 : Nat) < 1 :=
  claim_C1_amended [⟨[], [], [], none, none, []⟩]
    ⟨0, ("INFO").data, ("hello").data, [], 0, []⟩
    ⟨0, by decide⟩ ⟨1, by decide⟩ (by decide) (by decide)

/-- C4: when `last_minutes = m` is set, request normalization sets the
effective `from_time` to now minus `m` minutes and the effective `to_time`
to now, replacing any explicitly supplied bounds (stated under the
hypothesis that the `time.Duration` multiplication does not overflow
`int64`). -/
theorem claim_C4 (now m : Int) (req : LogRequestM)
    (hm : req.lastMinutes = some m)
    (hlo : -(2 ^ 63) ≤ -m * 60000000000)
    (hhi : -m * 60000000000 < 2 ^ 63) :
    (normalizeRequest now req).fromTime = some (now - m * 60000000000)
    ∧ (normalizeRequest now req).toTime = some now := by
  have hwrap : now + minutesDuration (-m) = now - m * 60000000000 := by
    unfold minutesDuration int64wrap
    have h1 : (0 : Int) ≤ -m * 60000000000 + 2 ^ 63 := by omega
    have h2 : -m * 60000000000 + 2 ^ 63 < 2 ^ 64 := by omega
    rw [Int.emod_eq_of_lt h1 h2]
    omega
  unfold normalizeRequest
  rw [hm]
  constructor <;> simp [hwrap]

/-- Witness for C4: `last_minutes = 30` at `now = 10^12` ns yields
`from_time = now - 30min` and `to_time = now`, overriding the explicitly
supplied bounds `5` and `7`. -/
theorem claim_C4_witness :
    (normalizeRequest 1000000000000
        ⟨some 5, some 7, none, some 30, ("json").data⟩).fromTime
      = some (1000000000000 - 30 * 60000000000)
    ∧ (normalizeRequest 1000000000000
        ⟨some 5, some 7, none, some 30, ("json").data⟩).toTime
      = some 1000000000000 :=
  claim_C4 1000000000000 30 ⟨some 5, some 7, none, some 30, ("json").data⟩
    rfl (by decide) (by decide)

/-- The rolling-window fold of the tail scan equals a suffix take: starting
from a buffer not exceeding the window, folding the remaining lines leaves
exactly the lines of the combined list beyond the first
`total - window` ones. -/
theorem tailScan_foldl_eq (n : Int) (hn : 0 ≤ n) :
    ∀ (lines buf : List (List Char)), buf.length ≤ n.toNat →
      List.foldl
        (fun buf l =>
          if n < ((buf ++ [l]).length : Int) then (buf ++ [l]).drop 1
          else buf ++ [l])
        buf lines
      = (buf ++ lines).drop (buf.length + lines.length - n.toNat) := by
  intro lines
  induction lines with
  | nil =>
    intro buf hbuf
    simp only [List.foldl_nil, List.append_nil, List.length_nil, Nat.add_zero]
    rw [Nat.sub_eq_zero_of_le hbuf, List.drop_zero]
  | cons l ls ih =>
    intro buf hbuf
    simp only [List.foldl_cons]
    by_cases hfull : buf.length = n.toNat
    · have hcond : n < (((buf ++ [l]).length : Nat) : Int) := by
        simp only [List.length_append, List.length_singleton]
        omega
      rw [if_pos hcond]
      have hlen1 : ((buf ++ [l]).drop 1).length = n.toNat := by
        simp only [List.length_drop, List.length_append, List.length_singleton]
        omega
      rw [ih _ (le_of_eq hlen1), hlen1]
      have hstep : ((buf ++ [l]) ++ ls).drop 1 = (buf ++ [l]).drop 1 ++ ls :=
        List.drop_append_of_le_length (by simp)
      rw [← hstep, List.drop_drop]
      have hassoc : (buf ++ [l]) ++ ls = buf ++ l :: ls := by
        rw [List.append_assoc, List.singleton_append]
      rw [hassoc]
      congr 1
      simp only [List.length_cons, List.length_nil]
      omega
    · have hlt : buf.length < n.toNat := lt_of_le_of_ne hbuf hfull
      have hcond : ¬ n < (((buf ++ [l]).length : Nat) : Int) := by
        simp only [List.length_append, List.length_singleton]
        omega
      rw [if_neg hcond]
      have hlen1 : (buf ++ [l]).length ≤ n.toNat := by
        simp only [List.length_append, List.length_singleton]
        omega
      rw [ih _ hlen1]
      have hassoc : (buf ++ [l]) ++ ls = buf ++ l :: ls := by
        rw [List.append_assoc, List.singleton_append]
      rw [hassoc]
      congr 1
      simp only [List.length_append, List.length_singleton, List.length_cons,
        List.length_nil]
      omega

/-- C3: with `last_lines = N ≥ 1` set and no time bound in effect, the
selection returns the `N` most recent lines of the file (all lines when the
file has fewer than `N`), in original oldest-first order — the suffix of
the file's line list beyond the first `length - N` lines. -/
theorem claim_C3 (ex : List Char → Option Int) (now n : Int)
    (fmt : List Char) (lines : List (List Char)) (hn : 1 ≤ n) :
    getLogsSelect ex now ⟨none, none, some n, none, fmt⟩ lines
      = lines.drop (lines.length - n.toNat) := by
  have hnorm : normalizeRequest now ⟨none, none, some n, none, fmt⟩
      = ⟨none, none, some n, none, fmt⟩ := by
    unfold normalizeRequest
    simp
  unfold getLogsSelect
  rw [hnorm]
  rw [if_pos (by exact ⟨Option.some_ne_none n, rfl⟩)]
  unfold tailScan
  simp only [Option.getD_some]
  rw [tailScan_foldl_eq n (by omega) lines [] (by simp)]
  simp

/-- Witness for C3: the spec's example — a 5-line file with entries
timestamped 10:00:00…10:00:04 and `last_lines = 2` returns exactly the two
most recent lines, in original order. -/
theorem claim_C3_witness :
    getLogsSelect (fun _ => none) 0
        ⟨none, none, some 2, none, ("json").data⟩
        [("10:00:00 [INFO] e0").data, ("10:00:01 [INFO] e1").data,
         ("10:00:02 [INFO] e2").data, ("10:00:03 [INFO] e3").data,
         ("10:00:04 [INFO] e4").data]
      = [("10:00:03 [INFO] e3").data, ("10:00:04 [INFO] e4").data] :=
  (claim_C3 (fun _ => none) 0 2 ("json").data
    [("10:00:00 [INFO] e0").data, ("10:00:01 [INFO] e1").data,
     ("10:00:02 [INFO] e2").data, ("10:00:03 [INFO] e3").data,
     ("10:00:04 [INFO] e4").data] (by decide)).trans (by decide)

/-- Normalization never leaves `fromTime` empty when the request carried a
time bound: an explicit `fromTime`, an explicit `toTime`, or `lastMinutes`
all lead to a set effective `fromTime`. -/
theorem normalizeRequest_fromTime_ne_none (now : Int) (req : LogRequestM)
    (hb : req.fromTime ≠ none ∨ req.toTime ≠ none ∨ req.lastMinutes ≠ none) :
    (normalizeRequest now req).fromTime ≠ none := by
  obtain ⟨ft, tt, ll, lm, fm⟩ := req
  unfold normalizeRequest
  rcases lm with _ | m
  · rcases ft with _ | f
    · rcases tt with _ | t
      · simp at hb
      · simp
    · simp
  · simp

/-- The effective time bounds produced by normalization do not depend on
the `lastLines` value when one is set. -/
theorem normalizeRequest_lastLines_indep (now : Int) (ft tt lm : Option Int)
    (fm : List Char) (k1 k2 : Int) :
    (normalizeRequest now ⟨ft, tt, some k1, lm, fm⟩).fromTime
        = (normalizeRequest now ⟨ft, tt, some k2, lm, fm⟩).fromTime
    ∧ (normalizeRequest now ⟨ft, tt, some k1, lm, fm⟩).toTime
        = (normalizeRequest now ⟨ft, tt, some k2, lm, fm⟩).toTime := by
  unfold normalizeRequest
  rcases lm with _ | m <;> rcases ft with _ | f <;> rcases tt with _ | t <;> simp

/-- C9: when `last_lines` is set together with a time bound (an explicit
`from_time` or `to_time`, or one induced by `last_minutes`), the
time-filtered full scan is used and `last_lines` has no effect: the result
is exactly the lines accepted by the time filter, with no limit on their
number, and it is invariant under changing the `last_lines` value. -/
theorem claim_C9 (ex : List Char → Option Int) (now : Int)
    (req : LogRequestM) (n : Int) (lines : List (List Char))
    (hl : req.lastLines = some n)
    (hb : req.fromTime ≠ none ∨ req.toTime ≠ none ∨ req.lastMinutes ≠ none) :
    getLogsSelect ex now req lines
      = timeFilterScan ex (normalizeRequest now req).fromTime
          (normalizeRequest now req).toTime lines
    ∧ (∀ l, l ∈ getLogsSelect ex now req lines ↔
        l ∈ lines ∧ keepLine ex (normalizeRequest now req).fromTime
          (normalizeRequest now req).toTime l = true)
    ∧ (∀ n2 : Int, getLogsSelect ex now { req with lastLines := some n2 } lines
        = getLogsSelect ex now req lines) := by
  have hsome := normalizeRequest_fromTime_ne_none now req hb
  have heq : getLogsSelect ex now req lines
      = timeFilterScan ex (normalizeRequest now req).fromTime
          (normalizeRequest now req).toTime lines := by
    unfold getLogsSelect
    rw [if_neg (fun hcon => hsome hcon.2)]
  refine ⟨heq, fun l => by rw [heq]; exact List.mem_filter, ?_⟩
  intro n2
  obtain ⟨ft, tt, ll, lm, fm⟩ := req
  have hll : ll = some n := hl
  subst hll
  have hb2 : (⟨ft, tt, some n2, lm, fm⟩ : LogRequestM).fromTime ≠ none
      ∨ (⟨ft, tt, some n2, lm, fm⟩ : LogRequestM).toTime ≠ none
      ∨ (⟨ft, tt, some n2, lm, fm⟩ : LogRequestM).lastMinutes ≠ none := hb
  have hsome2 := normalizeRequest_fromTime_ne_none now ⟨ft, tt, some n2, lm, fm⟩ hb2
  have heq2 : getLogsSelect ex now ⟨ft, tt, some n2, lm, fm⟩ lines
      = timeFilterScan ex
          (normalizeRequest now ⟨ft, tt, some n2, lm, fm⟩).fromTime
          (normalizeRequest now ⟨ft, tt, some n2, lm, fm⟩).toTime lines := by
    unfold getLogsSelect
    rw [if_neg (fun hcon => hsome2 hcon.2)]
  have hindep := normalizeRequest_lastLines_indep now ft tt lm fm n2 n
  show getLogsSelect ex now ⟨ft, tt, some n2, lm, fm⟩ lines = _
  rw [heq2, heq, hindep.1, hindep.2]

/-- Witness for C9: a request with `last_lines = 1` and an explicit
`from_time` scans by time and returns both in-range lines — the line limit
is ignored. -/
theorem claim_C9_witness :
    getLogsSelect (fun _ => some 5) 0
        ⟨some 0, none, some 1, none, ("json").data⟩
        [("a").data, ("b").data]
      = [("a").data, ("b").data] :=
  ((claim_C9 (fun _ => some 5) 0 ⟨some 0, none, some 1, none, ("json").data⟩
      1 [("a").data, ("b").data] rfl
      (Or.inl (by decide))).1).trans (by decide)

/-- C7: during a time-range scan, a line whose timestamp cannot be parsed
is silently excluded and the scan continues over the remaining lines — the
result equals the scan of the other lines — and every returned line has a
parseable timestamp. -/
theorem claim_C7 (ex : List Char → Option Int) (fromT toT : Option Int)
    (pre post : List (List Char)) (l : List Char) (hl : ex l = none) :
    timeFilterScan ex fromT toT (pre ++ l :: post)
        = timeFilterScan ex fromT toT (pre ++ post)
    ∧ ∀ l2 ∈ timeFilterScan ex fromT toT (pre ++ l :: post),
        (ex l2).isSome = true := by
  have hkeep : keepLine ex fromT toT l = false := by
    unfold keepLine
    rw [hl]
  constructor
  · unfold timeFilterScan
    rw [List.filter_append, List.filter_append, List.filter_cons_of_neg]
    simp [hkeep]
  · intro l2 hmem
    have := (List.mem_filter.mp hmem).2
    unfold keepLine at this
    cases hex : ex l2 with
    | none => rw [hex] at this; cases this
    | some ts => rfl

/-- Witness for C7: a scan over three lines, the middle one unparseable,
returns the other two in-range lines and does not fail. -/
theorem claim_C7_witness :
    timeFilterScan
        (fun s => if s = ("bad").data then none else some 5)
        (some 0) (some 9)
        ([("a").data] ++ ("bad").data :: [("b").data])
      = [("a").data, ("b").data] :=
  ((claim_C7 (fun s => if s = ("bad").data then none else some 5)
      (some 0) (some 9) [("a").data] [("b").data] ("bad").data
      (by decide)).1).trans (by decide)

/-- C8: the CSV output begins with the header row
`Timestamp,Level,Message`; a selected line that does not split into at
least four space-delimited tokens produces no output row while the rest of
the output is unaffected; and a line that splits into four tokens produces
exactly one row with `date + " " + time` as Timestamp, the
bracket-stripped third token as Level, and the remainder as Message. -/
theorem claim_C8 (lines pre post : List (List Char)) (l : List Char)
    (p0 p1 p2 p3 : List Char) :
    (csvTable lines).head?
        = some [("Timestamp").data, ("Level").data, ("Message").data]
    ∧ ((splitN ' ' 4 l).length < 4 →
        csvTable (pre ++ l :: post) = csvTable (pre ++ post))
    ∧ (splitN ' ' 4 l = [p0, p1, p2, p3] →
        csvTable (pre ++ l :: post)
          = [("Timestamp").data, ("Level").data, ("Message").data] ::
              (pre.filterMap csvRowOf
                ++ [p0 ++ ' ' :: p1, trimCutset ('[' :: [']']) p2, p3]
                  :: post.filterMap csvRowOf)) := by
  refine ⟨rfl, ?_, ?_⟩
  · intro hlen
    have hnone : csvRowOf l = none := by
      unfold csvRowOf
      rcases hsp : splitN ' ' 4 l with
        _ | ⟨a, _ | ⟨b, _ | ⟨c, _ | ⟨d, _ | ⟨e, rest⟩⟩⟩⟩⟩
      · rfl
      · rfl
      · rfl
      · rfl
      · rw [hsp] at hlen
        simp at hlen
      · rfl
    unfold csvTable
    rw [List.filterMap_append, List.filterMap_append, List.filterMap_cons]
    rw [hnone]
  · intro hsp
    have hrow : csvRowOf l
        = some [p0 ++ ' ' :: p1, trimCutset ('[' :: [']']) p2, p3] := by
      unfold csvRowOf
      rw [hsp]
    unfold csvTable
    rw [List.filterMap_append, List.filterMap_cons, hrow]

/-- Witness for C8: a two-token line yields no row, and a four-token line
yields one row with the bracket level stripped. -/
theorem claim_C8_witness :
    csvTable [("short line").data]
        = [[("Timestamp").data, ("Level").data, ("Message").data]]
    ∧ csvTable [("2024/03/09 10:32:30 [INFO] Starting server...").data]
        = [[("Timestamp").data, ("Level").data, ("Message").data],
           [("2024/03/09 10:32:30").data, ("INFO").data,
            ("Starting server...").data]] := by
  constructor
  · have := (claim_C8 [] [] [] ("short line").data [] [] [] []).2.1 (by decide)
    exact this.trans (by decide)
  · have := (claim_C8 [] [] []
        ("2024/03/09 10:32:30 [INFO] Starting server...").data
        ("2024/03/09").data ("10:32:30").data ("[INFO]").data
        ("Starting server...").data).2.2 (by decide)
    exact this.trans (by decide)

/-! ### Round-trip of the rendered timestamp (toward C2) -/

/-- The rendered decimal digits are the ASCII digit characters. -/
theorem digitChar_toNat_eq :
    ∀ d : Nat, d < 10 → (Nat.digitChar d).toNat = 48 + d := by
  decide

/-- Rendered decimal digits satisfy `Char.isDigit`. -/
theorem digitChar_isDigit :
    ∀ d : Nat, d < 10 → (Nat.digitChar d).isDigit = true := by
  decide

/-- Scanning rendered digit characters accumulates the same value as
scanning the digits themselves. -/
theorem foldl_digitChar (ds : List Nat) (h : ∀ d ∈ ds, d < 10) :
    ∀ a : Nat,
      List.foldl (fun x c => 10 * x + (c.toNat - 48)) a (ds.map Nat.digitChar)
        = List.foldl (fun x d => 10 * x + d) a ds := by
  induction ds with
  | nil => intro a; rfl
  | cons d tl ih =>
    intro a
    simp only [List.map_cons, List.foldl_cons]
    rw [digitChar_toNat_eq d (h d (List.mem_cons_self d tl))]
    have hstep : 48 + d - 48 = d := by omega
    rw [hstep]
    exact ih (fun x hx => h x (List.mem_cons_of_mem d hx)) _

/-- Horner evaluation of a reversed little-endian digit list. -/
theorem foldl_base10 (l : List Nat) :
    ∀ a : Nat,
      List.foldl (fun x d => 10 * x + d) a l.reverse
        = a * 10 ^ l.length + Nat.ofDigits 10 l := by
  induction l with
  | nil => intro a; simp [Nat.ofDigits_nil]
  | cons d tl ih =>
    intro a
    rw [List.reverse_cons, List.foldl_append, ih a]
    simp only [List.foldl_cons, List.foldl_nil, Nat.ofDigits_cons,
      List.length_cons]
    ring

/-- A number below `10 ^ w` has at most `w` decimal digits. -/
theorem digits_len_le_of_lt_pow {n w : Nat} (h : n < 10 ^ w) :
    (Nat.digits 10 n).length ≤ w := by
  by_cases hn : n = 0
  · subst hn; simp
  · by_contra hlen
    push_neg at hlen
    have h1 : 10 ^ (Nat.digits 10 n).length ≤ 10 * n :=
      Nat.base_pow_length_digits_le 10 n (by norm_num) hn
    have h2 : 10 ^ (w + 1) ≤ 10 ^ (Nat.digits 10 n).length :=
      Nat.pow_le_pow_right (by norm_num) hlen
    rw [pow_succ] at h2
    omega

/-- A zero-padded rendering of `n < 10 ^ w` has exactly `w` characters. -/
theorem renderPad_length {w n : Nat} (h : n < 10 ^ w) :
    (renderPad w n).length = w := by
  unfold renderPad
  have hle : (Nat.digits 10 n).length ≤ w := digits_len_le_of_lt_pow h
  simp only [List.length_append, List.length_replicate, List.length_map,
    List.length_reverse]
  omega

/-- Every character of a zero-padded rendering is a decimal digit. -/
theorem renderPad_all_isDigit (w n : Nat) :
    ∀ c ∈ renderPad w n, c.isDigit = true := by
  intro c hc
  unfold renderPad at hc
  rcases List.mem_append.mp hc with hrep | hmap
  · rw [List.eq_of_mem_replicate hrep]
    decide
  · obtain ⟨d, hdmem, hdc⟩ := List.mem_map.mp hmap
    rw [← hdc]
    exact digitChar_isDigit d
      (Nat.digits_lt_base (by norm_num) (List.mem_reverse.mp hdmem))

/-- Scanning back a zero-padded rendering recovers the value (leading
zeros do not change it). -/
theorem digitsToNat_renderPad (w n : Nat) :
    digitsToNat (renderPad w n) = n := by
  unfold digitsToNat renderPad
  rw [List.foldl_append]
  have hzeros : ∀ k, List.foldl (fun x c => 10 * x + (c.toNat - 48)) 0
      (List.replicate k '0') = 0 := by
    intro k
    induction k with
    | zero => rfl
    | succ k ih =>
      rw [List.replicate_succ, List.foldl_cons]
      simpa using ih
  rw [hzeros]
  rw [foldl_digitChar _ (fun d hd =>
    Nat.digits_lt_base (by norm_num) (List.mem_reverse.mp hd))]
  rw [foldl_base10]
  simp [Nat.ofDigits_digits]

/-- The fixed-width scan consumes exactly a zero-padded rendering. -/
theorem takeNum_renderPad (w n : Nat) (h : n < 10 ^ w) :
    ∀ rest, takeNum w (renderPad w n ++ rest) = some (n, rest) := by
  intro rest
  unfold takeNum
  have hlen := renderPad_length h
  have htake : (renderPad w n ++ rest).take w = renderPad w n :=
    List.take_left' hlen
  have hdrop : (renderPad w n ++ rest).drop w = rest :=
    List.drop_left' hlen
  rw [htake, hdrop, if_pos ⟨hlen, List.all_eq_true.mpr (renderPad_all_isDigit w n)⟩,
    digitsToNat_renderPad w n]

/-- Variant of `takeNum_renderPad` with nothing after the rendering. -/
theorem takeNum_renderPad_exact (w n : Nat) (h : n < 10 ^ w) :
    takeNum w (renderPad w n) = some (n, []) := by
  have := takeNum_renderPad w n h []
  rwa [List.append_nil] at this

/-- The flexible scan consumes exactly a two-digit zero-padded rendering. -/
theorem takeNumFlex_renderPad (n : Nat) (h : n < 100) :
    ∀ rest, takeNumFlex (renderPad 2 n ++ rest) = some (n, rest) := by
  intro rest
  have hpow : n < 10 ^ 2 := by norm_num [h]
  have hlen : (renderPad 2 n).length = 2 := renderPad_length hpow
  obtain ⟨c1, c2, hc⟩ := List.length_eq_two.mp hlen
  have hall := renderPad_all_isDigit 2 n
  rw [hc] at hall
  have h1 : c1.isDigit = true := hall c1 (by simp)
  have h2 : c2.isDigit = true := hall c2 (by simp)
  have hval : digitsToNat [c1, c2] = n := by
    have := digitsToNat_renderPad 2 n
    rwa [hc] at this
  rw [hc]
  simp only [List.cons_append, List.nil_append, takeNumFlex]
  rw [if_pos ⟨h1, h2⟩, hval]

/-- The layout-literal scan consumes a matching character. -/
theorem expectCh_cons (c : Char) (rest : List Char) :
    expectCh c (c :: rest) = some rest := by
  simp [expectCh]

/-- Splitting off the first separator of `a ++ ' ' :: b` yields `(a, b)`
when `a` has no separator. -/
theorem splitOnceAux_append (a b : List Char) (ha : ' ' ∉ a) :
    splitOnceAux ' ' (a ++ ' ' :: b) = some (a, b) := by
  induction a with
  | nil => simp [splitOnceAux]
  | cons x xs ih =>
    have hx : ¬ x = ' ' := fun hxe => ha (hxe ▸ List.mem_cons_self x xs)
    have hxs : ' ' ∉ xs := fun hm => ha (List.mem_cons_of_mem x hm)
    simp only [List.cons_append, splitOnceAux, List.append_eq]
    rw [if_neg hx, ih hxs]
    rfl

/-- `SplitN(s, " ", 3)` on a line with two separator-free leading fields
yields exactly those fields and the remainder. -/
theorem splitN3_eq (a b c : List Char) (ha : ' ' ∉ a) (hb : ' ' ∉ b) :
    splitN ' ' 3 (a ++ ' ' :: (b ++ ' ' :: c)) = [a, b, c] := by
  have h1 : splitOnceAux ' ' (a ++ ' ' :: (b ++ ' ' :: c))
      = some (a, b ++ ' ' :: c) := splitOnceAux_append a _ ha
  have h2 : splitOnceAux ' ' (b ++ ' ' :: c) = some (b, c) :=
    splitOnceAux_append b c hb
  simp [splitN, h1, h2]

/-- Re-parsing a rendered `YYYY/MM/DD hh:mm:ss` header recovers the
components, for any valid wall-clock reading with a four-digit year. -/
theorem parseFullTimestamp_render (y mo d h mi s : Nat)
    (hy : y ≤ 9999) (hmo1 : 1 ≤ mo) (hmo : mo ≤ 12) (hd1 : 1 ≤ d)
    (hd : d ≤ daysInMonth y mo) (hh : h ≤ 23) (hmi : mi ≤ 59)
    (hs : s ≤ 59) :
    parseFullTimestamp
      ((renderPad 4 y ++ '/' :: renderPad 2 mo ++ '/' :: renderPad 2 d)
        ++ ' ' :: (renderPad 2 h ++ ':' :: renderPad 2 mi
          ++ ':' :: renderPad 2 s))
      = some ⟨y, mo, d, h, mi, s, 0⟩ := by
  have hy4 : y < 10 ^ 4 := by norm_num; omega
  have hmo2 : mo < 10 ^ 2 := by norm_num; omega
  have hd2 : d < 10 ^ 2 := by
    have hdm : daysInMonth y mo ≤ 31 := by
      unfold daysInMonth
      split
      · split <;> norm_num
      · split
        · norm_num
        · split <;> norm_num
    norm_num
    omega
  have hh2 : h < 100 := by omega
  have hmi2 : mi < 10 ^ 2 := by norm_num; omega
  have hs2 : s < 10 ^ 2 := by norm_num; omega
  simp only [List.append_assoc, List.cons_append]
  unfold parseFullTimestamp
  simp only [takeNum_renderPad 4 y hy4, takeNum_renderPad 2 mo hmo2,
    takeNum_renderPad 2 d hd2, takeNumFlex_renderPad h hh2,
    takeNum_renderPad 2 mi hmi2, takeNum_renderPad_exact 2 s hs2,
    expectCh_cons, Option.some_bind]
  rw [if_pos ⟨trivial, hmo1, hmo, hd1, hd, hh, hmi, hs⟩]

/-- A zero-padded rendering never contains a space. -/
theorem space_not_mem_renderPad (w n : Nat) : ' ' ∉ renderPad w n := by
  intro hmem
  exact absurd (renderPad_all_isDigit w n ' ' hmem) (by decide)

/-- The date field of the header contains no space. -/
theorem space_not_mem_datePart (y mo d : Nat) :
    ' ' ∉ renderPad 4 y ++ '/' :: renderPad 2 mo ++ '/' :: renderPad 2 d := by
  intro hmem
  rcases List.mem_append.mp hmem with h1 | h1
  · rcases List.mem_append.mp h1 with h2 | h2
    · exact space_not_mem_renderPad _ _ h2
    · rcases List.mem_cons.mp h2 with h3 | h3
      · exact absurd h3 (by decide)
      · exact space_not_mem_renderPad _ _ h3
  · rcases List.mem_cons.mp h1 with h2 | h2
    · exact absurd h2 (by decide)
    · exact space_not_mem_renderPad _ _ h2

/-- The time field of the header contains no space. -/
theorem space_not_mem_timePart (h mi s : Nat) :
    ' ' ∉ renderPad 2 h ++ ':' :: renderPad 2 mi ++ ':' :: renderPad 2 s := by
  intro hmem
  rcases List.mem_append.mp hmem with h1 | h1
  · rcases List.mem_append.mp h1 with h2 | h2
    · exact space_not_mem_renderPad _ _ h2
    · rcases List.mem_cons.mp h2 with h3 | h3
      · exact absurd h3 (by decide)
      · exact space_not_mem_renderPad _ _ h3
  · rcases List.mem_cons.mp h1 with h2 | h2
    · exact absurd h2 (by decide)
    · exact space_not_mem_renderPad _ _ h2

/-- C2: formatting an entry to a log line as the logger writes it and
re-parsing the line's timestamp through the retrieval scan's
`extractTimestamp` recovers the original emission instant to one-second
precision, for any valid wall-clock instant with a four-digit year. -/
theorem claim_C2 (t : DateTime) (level source msg : List Char)
    (lineNo : Int) (today : DateTime)
    (hy : t.year ≤ 9999) (hmo1 : 1 ≤ t.month) (hmo : t.month ≤ 12)
    (hd1 : 1 ≤ t.day) (hd : t.day ≤ daysInMonth t.year t.month)
    (hh : t.hour ≤ 23) (hmi : t.minute ≤ 59) (hs : t.second ≤ 59) :
    extractTimestamp today (logLine t level source lineNo msg)
      = some (truncSec t) := by
  obtain ⟨y, mo, d, h, mi, s, ns⟩ := t
  have hline : logLine ⟨y, mo, d, h, mi, s, ns⟩ level source lineNo msg
      = (renderPad 4 y ++ '/' :: renderPad 2 mo ++ '/' :: renderPad 2 d)
        ++ ' ' :: ((renderPad 2 h ++ ':' :: renderPad 2 mi
            ++ ':' :: renderPad 2 s)
          ++ ' ' :: logBody level source lineNo msg) := by
    unfold logLine stdHeader
    simp [List.append_assoc, List.cons_append]
  rw [hline]
  unfold extractTimestamp
  rw [splitN3_eq _ _ _ (space_not_mem_datePart y mo d)
    (space_not_mem_timePart h mi s)]
  rw [if_neg (by simp)]
  simp only [List.getD_cons_zero, List.getD_cons_succ]
  rw [parseFullTimestamp_render y mo d h mi s hy hmo1 hmo hd1 hd hh hmi hs]
  rfl

/-- Witness for C2: a concrete entry at 2024/03/09 10:32:30 (with a
sub-second component) formats and re-parses to the same instant truncated
to the second. -/
theorem claim_C2_witness :
    extractTimestamp ⟨2026, 10, 11, 0, 0, 0, 0⟩
        (logLine ⟨2024, 3, 9, 10, 32, 30, 123456789⟩ ("INFO").data []
          0 ("Starting server...").data)
      = some ⟨2024, 3, 9, 10, 32, 30, 0⟩ :=
  claim_C2 ⟨2024, 3, 9, 10, 32, 30, 123456789⟩ ("INFO").data []
    ("Starting server...").data 0 ⟨2026, 10, 11, 0, 0, 0, 0⟩
    (by decide) (by decide) (by decide) (by decide) (by decide)
    (by decide) (by decide) (by decide)

end ExampleServer
